import Mathlib

/-!
Verification development for the Mini-Search-Engine repository
(src/crawler.py, src/indexer.py, src/searcher.py).

The three Python modules are shallowly embedded below:

* The tokenizer pipeline shared by indexer.py (Indexer._preprocess_text)
  and searcher.py (Searcher._preprocess_query): lowercase, delete every
  character outside [a-z0-9\s], tokenize, drop stopwords.  The external
  nltk.word_tokenize call is modelled, per the spec contract for the
  Tokenizer, as whitespace splitting; the nltk English stopword list is
  embedded as a fixed list (entries containing an apostrophe are omitted:
  after the regex strip a token can only contain [a-z0-9], so those
  entries can never match a token and their omission is
  behavior-preserving).
* The searcher: posting-list lookup, boolean-AND intersection, the
  scoring loop, ranking, and row lookup with missing rows skipped.
* The indexer: posting-list construction and the JSON save/load round
  trip, modelled at the level of structured JSON values (the byte-level
  file I/O is an external collaborator in the spec).
* The crawler: frontier queue, visited set, robots cache, store, and the
  crawl loop.  External collaborators (HTTP fetch + HTML parse, the
  robots.txt read) are modelled as explicit finite oracles; a failed
  robots read at a given attempt is a none outcome of the oracle.
-/

namespace MiniSearch

/-- Python str.lower restricted to ASCII: chars A-Z (codes 65-90) map to
a-z; other characters are unchanged.  (Full Unicode lowercasing only
differs on characters that the following strip deletes anyway.) -/
def pyLowerChar (c : Char) : Char :=
  if 65 ≤ c.toNat ∧ c.toNat ≤ 90 then Char.ofNat (c.toNat + 32) else c

/-- The character class \s of the Python regex, ASCII part:
space, tab, newline, carriage return, vertical tab, form feed. -/
def isPySpace (c : Char) : Bool :=
  c == ' ' || c == '\t' || c == '\n' || c == '\r' || c == '\x0b' || c == '\x0c'

/-- Characters kept by re.sub(r'[^a-z0-9\s]', '', text): lowercase ASCII
letters, ASCII digits, whitespace. -/
def keepCode (c : Char) : Bool :=
  (decide (97 ≤ c.toNat) && decide (c.toNat ≤ 122)) ||
  (decide (48 ≤ c.toNat) && decide (c.toNat ≤ 57)) || isPySpace c

/-- Characters kept by the spec wording: every ASCII letter (upper or
lower case), digit, or whitespace. -/
def keepSpec (c : Char) : Bool :=
  (decide (65 ≤ c.toNat) && decide (c.toNat ≤ 90)) || keepCode c

/-- The nltk English stopword list (entries with an apostrophe omitted;
they cannot match any token produced after the regex strip). -/
def stop_words : List String :=
  ["i", "me", "my", "myself", "we", "our", "ours", "ourselves",
   "you", "your", "yours", "yourself", "yourselves",
   "he", "him", "his", "himself", "she", "her", "hers", "herself",
   "it", "its", "itself", "they", "them", "their", "theirs", "themselves",
   "what", "which", "who", "whom", "this", "that", "these", "those",
   "am", "is", "are", "was", "were", "be", "been", "being",
   "have", "has", "had", "having", "do", "does", "did", "doing",
   "a", "an", "the", "and", "but", "if", "or", "because", "as",
   "until", "while", "of", "at", "by", "for", "with", "about",
   "against", "between", "into", "through", "during", "before",
   "after", "above", "below", "to", "from", "up", "down", "in",
   "out", "on", "off", "over", "under", "again", "further", "then",
   "once", "here", "there", "when", "where", "why", "how", "all",
   "any", "both", "each", "few", "more", "most", "other", "some",
   "such", "no", "nor", "not", "only", "own", "same", "so", "than",
   "too", "very", "s", "t", "can", "will", "just", "don", "should",
   "now", "d", "ll", "m", "o", "re", "ve", "y", "ain", "aren",
   "couldn", "didn", "doesn", "hadn", "hasn", "haven", "isn", "ma",
   "mightn", "mustn", "needn", "shan", "shouldn", "wasn", "weren",
   "won", "wouldn"]

/-- Split a character list into maximal whitespace-free words.
The accumulator holds the current word reversed. -/
def wordsAux : List Char → List Char → List String
  | [], acc => if acc.isEmpty then [] else [String.mk acc.reverse]
  | c :: rest, acc =>
    if isPySpace c then
      if acc.isEmpty then wordsAux rest []
      else String.mk acc.reverse :: wordsAux rest []
    else wordsAux rest (c :: acc)

/-- Modelled from the spec: nltk.word_tokenize (an external library call
in indexer.py line 48 and searcher.py line 42) applied to text already
stripped to [a-z0-9\s]; the spec Tokenizer contract specifies splitting
on whitespace into tokens. -/
def word_tokenize (cs : List Char) : List String := wordsAux cs []

/-- The token stream of the code path before stopword removal:
lowercase, strip non-[a-z0-9\s], tokenize. -/
def rawTokens (text : String) : List String :=
  word_tokenize ((text.toList.map pyLowerChar).filter keepCode)

namespace Indexer

/-- Embedding of Indexer._preprocess_text (src/indexer.py lines 33-51):
lowercase; remove every character that is not in [a-z0-9\s]; tokenize
into words; remove stopwords. -/
def preprocess_text (text : String) : List String :=
  (word_tokenize ((text.toList.map pyLowerChar).filter keepCode)).filter
    (fun w => decide (w ∉ stop_words))

end Indexer

namespace Searcher

/-- Embedding of Searcher._preprocess_query (src/searcher.py lines
35-43), the query-path copy of the same pipeline. -/
def preprocess_query (q : String) : List String :=
  (word_tokenize ((q.toList.map pyLowerChar).filter keepCode)).filter
    (fun w => decide (w ∉ stop_words))

/-- Embedding of self.inverted_index.get(word, []) (src/searcher.py
lines 60 and 66): the posting list of a term, with the empty list as the
default for a term absent from the loaded index.  The loaded index is an
association list term -> posting list, mirroring the insertion-ordered
Python dict. -/
def lookupPostings (idx : List (String × List Int)) (w : String) : List Int :=
  match idx.find? (fun p => p.1 = w) with
  | some p => p.2
  | none => []

/-- Embedding of the boolean-AND phase of Searcher.search (src/searcher.py
lines 59-66): start from the posting set of the first term, then
intersect with the posting set of each subsequent term.  The Python set
result_doc_ids is modelled as a duplicate-free list (its iteration order
is a CPython implementation artifact; only membership is load-bearing).
For the empty token list (unreachable: search returns early) the result
is empty. -/
def candidateIds (idx : List (String × List Int)) : List String → List Int
  | [] => []
  | t :: rest =>
    rest.foldl (fun acc w => acc.filter (fun d => decide (d ∈ lookupPostings idx w)))
      (lookupPostings idx t).dedup

/-- One doc_scores[doc_id] += 1 update of the defaultdict(int)
(src/searcher.py line 78): bump the entry if the key is present,
otherwise append a fresh entry with value 1. -/
def bumpScore (m : List (Int × Nat)) (d : Int) : List (Int × Nat) :=
  if m.any (fun p => p.1 == d) then
    m.map (fun p => if p.1 == d then (p.1, p.2 + 1) else p)
  else m ++ [(d, 1)]

/-- Embedding of the scoring loop of Searcher.search (src/searcher.py
lines 74-78): for each candidate document, add one point per query
term. -/
def docScores (ts : List String) (cands : List Int) : List (Int × Nat) :=
  cands.foldl (fun m d => ts.foldl (fun m2 _ => bumpScore m2 d) m) []

/-- doc_scores[x] for the sort key (src/searcher.py line 81). -/
def scoreOf (m : List (Int × Nat)) (d : Int) : Nat :=
  match m.find? (fun p => p.1 == d) with
  | some p => p.2
  | none => 0

/-- Stable descending insertion by score: x goes before the first
element of strictly smaller score (equal scores keep their order, as
Python sorted with reverse=True is stable). -/
def insertByScore (score : Int → Nat) (x : Int) : List Int → List Int
  | [] => [x]
  | y :: ys => if score y < score x then x :: y :: ys else y :: insertByScore score x ys

/-- Stable sort by score descending, modelling
sorted(doc_scores.keys(), key=lambda x: doc_scores[x], reverse=True)
(src/searcher.py line 81). -/
def sortByScore (score : Int → Nat) (l : List Int) : List Int :=
  l.foldr (insertByScore score) []

/-- The ranked candidate ids of a non-empty candidate set. -/
def rankedIds (idx : List (String × List Int)) (ts : List String) : List Int :=
  sortByScore (scoreOf (docScores ts (candidateIds idx ts))) (candidateIds idx ts)

/-- The document ids whose rows search will fetch, in ranked order;
empty when the query tokenizes to nothing or the intersection is
empty. -/
def rankedResultIds (idx : List (String × List Int)) (q : String) : List Int :=
  match preprocess_query q with
  | [] => []
  | t :: rest =>
    if candidateIds idx (t :: rest) = [] then [] else rankedIds idx (t :: rest)

/-- The (url, snippet) pair built from a fetched row (src/searcher.py
lines 90-93): the snippet is the first 100 characters of the text
content, stripped, with a trailing ellipsis marker. -/
def resultOfRow (row : String × String) : String × String :=
  (row.1, (row.2.take 100).trim ++ "...")

/-- Embedding of Searcher.search (src/searcher.py lines 45-95).  The
document store (sqlite pages table) is an external collaborator modelled
as a partial map from document id to the (url, text_content) row. -/
def search (idx : List (String × List Int)) (db : Int → Option (String × String))
    (q : String) : List (String × String) :=
  match preprocess_query q with
  | [] => []
  | t :: rest =>
    if candidateIds idx (t :: rest) = [] then []
    else
      (rankedIds idx (t :: rest)).foldl (fun results d =>
        match db d with
        | some row => results ++ [resultOfRow row]
        | none => results) []

end Searcher

/-- The reference tokenizer pipeline as worded by the spec (section
4.4): lowercase the text; strip every character that is not an ASCII
letter, digit, or whitespace; split on whitespace; drop stopwords. -/
def tokenizeSpec (text : String) : List String :=
  (word_tokenize ((text.toList.map pyLowerChar).filter keepSpec)).filter
    (fun w => decide (w ∉ stop_words))

/-- Structured JSON values, the level at which the serialized index is
modelled (the byte-level file read/write is an external collaborator per
spec sections 1 and 6). -/
inductive Json where
  | num : Int → Json
  | str : String → Json
  | arr : List Json → Json
  | obj : List (String × Json) → Json

namespace Indexer

/-- One inner-loop step of Indexer.build_index (src/indexer.py lines
75-81): create the posting list of a new word, then append the document
id unless it is already present. -/
def addPosting (idx : List (String × List Int)) (w : String) (d : Int) :
    List (String × List Int) :=
  if idx.any (fun p => p.1 == w) then
    idx.map (fun p => if p.1 == w then (p.1, if d ∈ p.2 then p.2 else p.2 ++ [d]) else p)
  else idx ++ [(w, [d])]

/-- Embedding of Indexer.build_index (src/indexer.py lines 53-86) on the
fetched (id, text_content) rows: tokenize each document and extend the
posting lists word by word. -/
def build_index (rows : List (Int × String)) : List (String × List Int) :=
  rows.foldl (fun idx row =>
    (preprocess_text row.2).foldl (fun ix w => addPosting ix w row.1) idx) []

/-- Embedding of Indexer.save_index (src/indexer.py lines 88-93):
json.dump of the inverted index, at the structured-value level. -/
def save_index (idx : List (String × List Int)) : Json :=
  Json.obj (idx.map (fun p => (p.1, Json.arr (p.2.map Json.num))))

end Indexer

namespace Searcher

/-- Decode a JSON array element list back into a posting list. -/
def decodeIds : List Json → Option (List Int)
  | [] => some []
  | Json.num n :: rest =>
    match decodeIds rest with
    | some ns => some (n :: ns)
    | none => none
  | _ => none

/-- Decode the entries of the serialized JSON object back into the
association list of the inverted index. -/
def decodeEntries : List (String × Json) → Option (List (String × List Int))
  | [] => some []
  | (k, Json.arr vs) :: rest =>
    match decodeIds vs, decodeEntries rest with
    | some ns, some tl => some ((k, ns) :: tl)
    | _, _ => none
  | _ => none

/-- Embedding of the index load in Searcher.__init__ (src/searcher.py
lines 27-30): json.load of the serialized index, at the
structured-value level. -/
def load_index (j : Json) : Option (List (String × List Int)) :=
  match j with
  | Json.obj entries => decodeEntries entries
  | _ => none

end Searcher

/-- The outcome of a successful fetch-and-parse of one URL: HTTP status,
raw HTML, extracted text, and the absolute links found on the page.
requests.get plus BeautifulSoup are external collaborators; a fetch that
raises (requests.RequestException or any other exception) is modelled as
the URL being absent from the web map. -/
structure Page where
  status : Nat
  html : String
  text : String
  links : List String

namespace Crawler

/-- Split a character list at the first occurrence of the separator
sequence ://, returning the parts before and after it. -/
def splitScheme : List Char → Option (List Char × List Char)
  | [] => none
  | ':' :: '/' :: '/' :: rest => some ([], rest)
  | c :: rest =>
    match splitScheme rest with
    | some (pre, post) => some (c :: pre, post)
    | none => none

/-- Modelled from the stdlib contract of urllib.parse.urlparse as used
in Crawler._can_fetch (src/crawler.py lines 50-51): the scheme://netloc
prefix of a URL, which keys the per-host robots cache (the netloc ends
at the first slash, question mark or hash). -/
def baseUrl (url : String) : String :=
  match splitScheme url.toList with
  | some (pre, post) =>
    String.mk pre ++ "://"
      ++ String.mk (post.takeWhile (fun c => !(c == '/' || c == '?' || c == '#')))
  | none => "://"

/-- The mutable crawler state (src/crawler.py lines 23-30 plus the
pages_crawled counter of the crawl loop): the frontier queue, the
visited set, the per-host robots cache, the per-host count of robots
read attempts (which indexes the read oracle), the pages table of the
database as an insertion-ordered list of (url, html_content,
text_content) rows, and the loop counter. -/
structure CrawlState where
  queue : List String
  visited : Finset String
  robotParsers : String → Option (String → Bool)
  attempts : String → Nat
  store : List (String × String × String)
  pagesCrawled : Nat

/-- Embedding of Crawler._can_fetch (src/crawler.py lines 46-65).  A
cached parser answers directly.  Otherwise RobotFileParser.read is
attempted: the oracle maps (host, attempt number) to some policy on
success and none on failure (unreachable, timeout, ...).  On success the
parser is cached and consulted; on failure the method returns False
WITHOUT caching anything (only the attempt counter, a modelling device
for the passage of time, advances). -/
def can_fetch (oracle : String → Nat → Option (String → Bool)) (s : CrawlState)
    (url : String) : Bool × CrawlState :=
  match s.robotParsers (baseUrl url) with
  | some rp => (rp url, s)
  | none =>
    match oracle (baseUrl url) (s.attempts (baseUrl url)) with
    | some rp =>
      (rp url,
        { s with
          robotParsers := fun b => if b = baseUrl url then some rp else s.robotParsers b,
          attempts := fun b => if b = baseUrl url then s.attempts b + 1 else s.attempts b })
    | none =>
      (false,
        { s with
          attempts := fun b => if b = baseUrl url then s.attempts b + 1 else s.attempts b })

/-- Embedding of Crawler._store_page (src/crawler.py lines 67-79): the
INSERT succeeds iff no row with this url exists; the duplicate-URL
IntegrityError is swallowed and the store is left unchanged. -/
def store_page (store : List (String × String × String)) (url html text : String) :
    List (String × String × String) :=
  if store.any (fun r => r.1 == url) then store else store ++ [(url, html, text)]

/-- Python str.startswith, modelled structurally on the character
lists. -/
def startswith (s pre : String) : Bool := pre.toList.isPrefixOf s.toList

/-- Embedding of the link loop of Crawler.crawl (src/crawler.py lines
120-124): append each discovered absolute link whose string starts with
the prefix http to the tail of the queue. -/
def enqueueLinks (q : List String) (links : List String) : List String :=
  links.foldl (fun q2 l => if startswith l "http" then q2 ++ [l] else q2) q

/-- The finite web, an external collaborator: requests.get plus
BeautifulSoup text/link extraction for the URLs that respond. -/
def fetch (web : List (String × Page)) (url : String) : Option Page :=
  match web.find? (fun p => p.1 == url) with
  | some p => some p.2
  | none => none

/-- The tail of one loop iteration of Crawler.crawl after the robots
check passed (src/crawler.py lines 98-124): mark the URL visited, fetch
it; on a request exception or a non-200 status just continue; otherwise
store the page, bump the counter and enqueue the page links. -/
def crawlAllowed (web : List (String × Page)) (s : CrawlState) (url : String) :
    CrawlState :=
  let s2 : CrawlState := { s with visited := insert url s.visited }
  match fetch web url with
  | none => s2
  | some pg =>
    if pg.status ≠ 200 then s2
    else
      { s2 with
        store := store_page s2.store url pg.html pg.text,
        pagesCrawled := s2.pagesCrawled + 1,
        queue := enqueueLinks s2.queue pg.links }

/-- One iteration of the while loop of Crawler.crawl (src/crawler.py
lines 88-129): pop the head URL; skip it if already visited; skip it if
the robots check denies it (keeping any robots-cache update); otherwise
run the fetch-store-enqueue tail. -/
def crawlIter (web : List (String × Page)) (oracle : String → Nat → Option (String → Bool))
    (s : CrawlState) : CrawlState :=
  match s.queue with
  | [] => s
  | url :: rest =>
    if url ∈ s.visited then { s with queue := rest }
    else
      if (can_fetch oracle { s with queue := rest } url).1 then
        crawlAllowed web (can_fetch oracle { s with queue := rest } url).2 url
      else (can_fetch oracle { s with queue := rest } url).2

/-- Every link of every page of the finite web; the queue only ever
grows by elements of this set, which grounds termination. -/
def webLinks (web : List (String × Page)) : Finset String :=
  ((web.map (fun p => p.2.links)).flatten).toFinset

/-- Termination measure, first component: the number of URLs that are
still reachable work, i.e. queued or linkable but not yet visited. -/
def measure1 (web : List (String × Page)) (s : CrawlState) : Nat :=
  ((s.queue.toFinset ∪ webLinks web) \ s.visited).card

/-- can_fetch only touches the robots cache and the attempt counters. -/
def can_fetch_fields (oracle : String → Nat → Option (String → Bool)) (s : CrawlState)
    (url : String) :
    ((can_fetch oracle s url).2).queue = s.queue ∧
    ((can_fetch oracle s url).2).visited = s.visited ∧
    ((can_fetch oracle s url).2).store = s.store ∧
    ((can_fetch oracle s url).2).pagesCrawled = s.pagesCrawled := by
  unfold can_fetch
  rcases s.robotParsers (baseUrl url) with _ | rp
  · rcases oracle (baseUrl url) (s.attempts (baseUrl url)) with _ | rp
    · exact ⟨rfl, rfl, rfl, rfl⟩
    · exact ⟨rfl, rfl, rfl, rfl⟩
  · exact ⟨rfl, rfl, rfl, rfl⟩

/-- The enqueue loop appends exactly the links that start with the
prefix http, in order, with no other test. -/
def enqueueLinks_eq : ∀ (links q : List String),
    enqueueLinks q links = q ++ links.filter (fun l => startswith l "http")
  | [], q => by simp [enqueueLinks]
  | l :: ls, q => by
    unfold enqueueLinks
    rw [List.foldl_cons]
    by_cases h : startswith l "http" = true
    · rw [if_pos h]
      have ih := enqueueLinks_eq ls (q ++ [l])
      unfold enqueueLinks at ih
      rw [ih, List.filter_cons, if_pos h, List.append_assoc]
      rfl
    · rw [if_neg h]
      have ih := enqueueLinks_eq ls q
      unfold enqueueLinks at ih
      rw [ih, List.filter_cons, if_neg h]

/-- Links of a fetched page all lie in the link universe of the web. -/
def fetch_links_sub (web : List (String × Page)) (url : String) (pg : Page)
    (hf : fetch web url = some pg) : ∀ l ∈ pg.links, l ∈ webLinks web := by
  intro l hl
  unfold fetch at hf
  rcases hfind : web.find? (fun p => p.1 == url) with _ | p
  · rw [hfind] at hf; cases hf
  · rw [hfind] at hf
    have hpg : p.2 = pg := by injection hf
    have hp : p ∈ web := List.mem_of_find?_eq_some hfind
    unfold webLinks
    rw [List.mem_toFinset, List.mem_flatten]
    exact ⟨pg.links, by rw [← hpg]; exact List.mem_map_of_mem _ hp, hl⟩

/-- Case analysis of the allowed-path tail: either the fetch failed or
returned a non-200 status (only the visited set grows), or the page was
stored, the counter bumped, and the links enqueued. -/
def crawlAllowed_cases (web : List (String × Page)) (s : CrawlState) (url : String) :
    (crawlAllowed web s url = { s with visited := insert url s.visited } ∧
      (fetch web url = none ∨ ∃ pg : Page, fetch web url = some pg ∧ pg.status ≠ 200)) ∨
    (∃ pg : Page, fetch web url = some pg ∧ pg.status = 200 ∧
      crawlAllowed web s url =
        { s with
          visited := insert url s.visited,
          store := store_page s.store url pg.html pg.text,
          pagesCrawled := s.pagesCrawled + 1,
          queue := enqueueLinks s.queue pg.links }) := by
  unfold crawlAllowed
  rcases hf : fetch web url with _ | pg
  · exact Or.inl ⟨rfl, Or.inl rfl⟩
  · by_cases hst : pg.status = 200
    · refine Or.inr ⟨pg, rfl, hst, ?_⟩
      simp [hst]
    · refine Or.inl ⟨?_, Or.inr ⟨pg, rfl, hst⟩⟩
      simp [hst]

/-- Case analysis of one loop iteration on a non-empty queue: the
visited skip, the robots denial, or the allowed path. -/
def crawlIter_cases (web : List (String × Page))
    (oracle : String → Nat → Option (String → Bool)) (s : CrawlState)
    (url : String) (rest : List String) (hqe : s.queue = url :: rest) :
    (url ∈ s.visited ∧ crawlIter web oracle s = { s with queue := rest }) ∨
    (url ∉ s.visited ∧ (can_fetch oracle { s with queue := rest } url).1 = false ∧
      crawlIter web oracle s = (can_fetch oracle { s with queue := rest } url).2) ∨
    (url ∉ s.visited ∧ (can_fetch oracle { s with queue := rest } url).1 = true ∧
      crawlIter web oracle s =
        crawlAllowed web (can_fetch oracle { s with queue := rest } url).2 url) := by
  unfold crawlIter
  rw [hqe]
  by_cases hv : url ∈ s.visited
  · exact Or.inl ⟨hv, by simp [hv]⟩
  · by_cases hr : (can_fetch oracle { s with queue := rest } url).1 = true
    · exact Or.inr (Or.inr ⟨hv, hr, by simp [hv, hr]⟩)
    · exact Or.inr (Or.inl ⟨hv, by simpa using hr, by simp [hv, hr]⟩)

/-- Measure facts for an iteration that only pops the head of the queue
and leaves the visited set unchanged. -/
def measure_skip (web : List (String × Page)) (s t : CrawlState) (url : String)
    (rest : List String) (hqe : s.queue = url :: rest)
    (htq : t.queue = rest) (htv : t.visited = s.visited) :
    measure1 web t < measure1 web s ∨
    (measure1 web t = measure1 web s ∧ t.queue.length < s.queue.length) := by
  have hlen : t.queue.length < s.queue.length := by rw [htq, hqe]; simp
  have hU : s.queue.toFinset ∪ webLinks web
      = insert url (rest.toFinset ∪ webLinks web) := by
    rw [hqe, List.toFinset_cons, Finset.insert_union]
  by_cases h1 : url ∈ rest.toFinset ∪ webLinks web
  · right
    refine ⟨?_, hlen⟩
    unfold measure1
    rw [htq, htv, hU, Finset.insert_eq_self.mpr h1]
  · by_cases h2 : url ∈ s.visited
    · right
      refine ⟨?_, hlen⟩
      unfold measure1
      rw [htq, htv, hU, Finset.insert_sdiff_of_mem _ h2]
    · left
      unfold measure1
      rw [htq, htv, hU, Finset.insert_sdiff_of_not_mem _ h2,
        Finset.card_insert_of_not_mem (fun hc => h1 (Finset.mem_sdiff.mp hc).1)]
      omega

/-- Measure fact for an iteration that marks the head URL visited:
the first measure component strictly drops. -/
def measure_mark (web : List (String × Page)) (s t : CrawlState) (url : String)
    (rest : List String) (hqe : s.queue = url :: rest) (hv : url ∉ s.visited)
    (htv : t.visited = insert url s.visited)
    (htq : t.queue.toFinset ⊆ rest.toFinset ∪ webLinks web) :
    measure1 web t < measure1 web s := by
  have hU : s.queue.toFinset ∪ webLinks web
      = insert url (rest.toFinset ∪ webLinks web) := by
    rw [hqe, List.toFinset_cons, Finset.insert_union]
  apply Finset.card_lt_card
  have hsub : (t.queue.toFinset ∪ webLinks web) \ t.visited
      ⊆ (s.queue.toFinset ∪ webLinks web) \ s.visited := by
    apply Finset.sdiff_subset_sdiff
    · rw [hU]
      exact (Finset.union_subset htq Finset.subset_union_right).trans
        (Finset.subset_insert _ _)
    · rw [htv]; exact Finset.subset_insert _ _
  refine (Finset.ssubset_iff_of_subset hsub).mpr ⟨url, ?_, ?_⟩
  · rw [Finset.mem_sdiff, hU]
    exact ⟨Finset.mem_insert_self _ _, hv⟩
  · rw [Finset.mem_sdiff, htv]
    exact fun hc => hc.2 (Finset.mem_insert_self _ _)

/-- One crawl iteration on a non-empty queue strictly decreases the
lexicographic measure. -/
def crawlIter_dec (web : List (String × Page))
    (oracle : String → Nat → Option (String → Bool)) (s : CrawlState)
    (hq : s.queue ≠ []) :
    measure1 web (crawlIter web oracle s) < measure1 web s ∨
    (measure1 web (crawlIter web oracle s) = measure1 web s ∧
      (crawlIter web oracle s).queue.length < s.queue.length) := by
  obtain ⟨url, rest, hqe⟩ : ∃ u r, s.queue = u :: r := by
    cases hq2 : s.queue with
    | nil => exact absurd hq2 hq
    | cons a b => exact ⟨a, b, rfl⟩
  · have hcf := can_fetch_fields oracle { s with queue := rest } url
    rcases crawlIter_cases web oracle s url rest hqe with
      ⟨hv, hiter⟩ | ⟨hv, _, hiter⟩ | ⟨hv, _, hiter⟩
    · exact measure_skip web s (crawlIter web oracle s) url rest hqe
        (by rw [hiter]) (by rw [hiter])
    · exact measure_skip web s (crawlIter web oracle s) url rest hqe
        (by rw [hiter]; exact hcf.1) (by rw [hiter]; exact hcf.2.1)
    · left
      set s1 := (can_fetch oracle { s with queue := rest } url).2 with hs1
      rcases crawlAllowed_cases web s1 url with ⟨hca, _⟩ | ⟨pg, hf, _, hca⟩
      · refine measure_mark web s (crawlIter web oracle s) url rest hqe hv ?_ ?_
        · rw [hiter, hca]
          show insert url s1.visited = insert url s.visited
          rw [hcf.2.1]
        · rw [hiter, hca]
          show s1.queue.toFinset ⊆ _
          rw [hcf.1]
          exact Finset.subset_union_left
      · refine measure_mark web s (crawlIter web oracle s) url rest hqe hv ?_ ?_
        · rw [hiter, hca]
          show insert url s1.visited = insert url s.visited
          rw [hcf.2.1]
        · rw [hiter, hca]
          show (enqueueLinks s1.queue pg.links).toFinset ⊆ _
          rw [hcf.1, enqueueLinks_eq, List.toFinset_append]
          apply Finset.union_subset Finset.subset_union_left
          intro l hl
          rw [List.mem_toFinset] at hl
          exact Finset.mem_union_right _
            (fetch_links_sub web url pg hf l (List.mem_of_mem_filter hl))

/-- Embedding of the while loop of Crawler.crawl (src/crawler.py lines
88-129): iterate while the queue is non-empty and fewer than max_pages
pages have been counted.  Termination is by the lexicographic measure
(unvisited reachable URLs, queue length), established in
crawlIter_dec. -/
def crawlLoop (web : List (String × Page)) (oracle : String → Nat → Option (String → Bool))
    (maxPages : Nat) (s : CrawlState) : CrawlState :=
  if h : s.queue = [] ∨ maxPages ≤ s.pagesCrawled then s
  else crawlLoop web oracle maxPages (crawlIter web oracle s)
termination_by (measure1 web s, s.queue.length)
decreasing_by
  have hq : s.queue ≠ [] := fun hh => h (Or.inl hh)
  rcases crawlIter_dec web oracle s hq with hlt | ⟨heq, hlen⟩
  · exact Prod.Lex.left _ _ hlt
  · rw [heq]
    exact Prod.Lex.right _ hlen

/-- The crawler state right after Crawler.__init__ (src/crawler.py lines
16-30) with a fresh database: the seeds queued, nothing visited, an
empty robots cache, an empty pages table. -/
def initState (seeds : List String) : CrawlState :=
  { queue := seeds, visited := ∅, robotParsers := fun _ => none,
    attempts := fun _ => 0, store := [], pagesCrawled := 0 }

/-- Embedding of Crawler.crawl run from a fresh crawler. -/
def crawl (web : List (String × Page)) (oracle : String → Nat → Option (String → Bool))
    (seeds : List String) (maxPages : Nat) : CrawlState :=
  crawlLoop web oracle maxPages (initState seeds)

/-- Any property preserved by one iteration (under the loop guard) holds
for the final state of the loop. -/
def crawlLoop_inv (web : List (String × Page)) (oracle : String → Nat → Option (String → Bool))
    (maxPages : Nat) (P : CrawlState → Prop)
    (hstep : ∀ s, s.queue ≠ [] → s.pagesCrawled < maxPages → P s → P (crawlIter web oracle s))
    (s : CrawlState) (hP : P s) : P (crawlLoop web oracle maxPages s) := by
  rw [crawlLoop.eq_def]
  split
  · exact hP
  · next h =>
    have hq : s.queue ≠ [] := fun hh => h (Or.inl hh)
    have hlt : s.pagesCrawled < maxPages := by
      rcases Nat.lt_or_ge s.pagesCrawled maxPages with h1 | h1
      · exact h1
      · exact absurd (Or.inr h1) h
    exact crawlLoop_inv web oracle maxPages P hstep (crawlIter web oracle s)
      (hstep s hq hlt hP)
termination_by (measure1 web s, s.queue.length)
decreasing_by
  rcases crawlIter_dec web oracle s hq with hlt2 | ⟨heq, hlen⟩
  · exact Prod.Lex.left _ _ hlt2
  · rw [heq]
    exact Prod.Lex.right _ hlen

/-- When the loop stops, its guard is false: the frontier is empty or
the page counter has reached max_pages. -/
def crawlLoop_exit (web : List (String × Page)) (oracle : String → Nat → Option (String → Bool))
    (maxPages : Nat) (s : CrawlState) :
    (crawlLoop web oracle maxPages s).queue = [] ∨
      maxPages ≤ (crawlLoop web oracle maxPages s).pagesCrawled := by
  rw [crawlLoop.eq_def]
  split
  · next h => exact h
  · next h =>
    have hq : s.queue ≠ [] := fun hh => h (Or.inl hh)
    exact crawlLoop_exit web oracle maxPages (crawlIter web oracle s)
termination_by (measure1 web s, s.queue.length)
decreasing_by
  rcases crawlIter_dec web oracle s hq with hlt | ⟨heq, hlen⟩
  · exact Prod.Lex.left _ _ hlt
  · rw [heq]
    exact Prod.Lex.right _ hlen

end Crawler

/-! Concrete fixtures used to instantiate theorems on explicit inputs. -/

/-- A robots policy that allows every URL. -/
def allowAll : String → Bool := fun _ => true

/-- A robots oracle whose read always fails. -/
def oracleNone : String → Nat → Option (String → Bool) := fun _ _ => none

/-- A robots oracle whose read fails on the first attempt for each host
and succeeds (with an allow-all policy) from the second attempt on:
a transient network failure. -/
def oracleFlaky : String → Nat → Option (String → Bool) :=
  fun _ n => if n = 0 then none else some allowAll

/-- A robots cache that already holds an allow-all parser for every
host. -/
def cacheAll : String → Option (String → Bool) := fun _ => some allowAll

/-- A page at http://a linking to http://b (already queued below) and to
httpx://c (not an http or https URL, but its string starts with
http). -/
def pgA : Page := { status := 200, html := "", text := "", links := ["http://b", "httpx://c"] }

/-- A one-page web. -/
def webW : List (String × Page) := [("http://a", pgA)]

/-- A crawler state about to process http://a while http://b is already
queued, with all robots checks passing from cache. -/
def sW : Crawler.CrawlState :=
  { queue := ["http://a", "http://b"], visited := ∅, robotParsers := cacheAll,
    attempts := fun _ => 0, store := [], pagesCrawled := 0 }

/-- A crawler state about to process http://a whose database already
contains a row for http://a (the table persists across runs: the schema
is created with IF NOT EXISTS), so the insert will be rejected. -/
def sDup : Crawler.CrawlState :=
  { queue := ["http://a"], visited := ∅, robotParsers := cacheAll,
    attempts := fun _ => 0, store := [("http://a", "x", "y")], pagesCrawled := 0 }

/-- A two-term toy index. -/
def idxW : List (String × List Int) := [("cat", [1, 2]), ("dog", [2, 3])]

/-! ## Theorems -/

/-- After ASCII lowercasing, the code character filter [a-z0-9\s] and
the spec filter (any ASCII letter, digit, or whitespace) agree: the
result of pyLowerChar is never an uppercase ASCII letter. -/
theorem keep_eq (c : Char) : keepSpec (pyLowerChar c) = keepCode (pyLowerChar c) := by
  by_cases hc : 65 ≤ c.toNat ∧ c.toNat ≤ 90
  · rw [pyLowerChar, if_pos hc]
    obtain ⟨h1, h2⟩ := hc
    generalize hn : c.toNat = n at h1 h2
    interval_cases n <;> decide
  · rw [pyLowerChar, if_neg hc]
    unfold keepSpec
    have hfalse : (decide (65 ≤ c.toNat) && decide (c.toNat ≤ 90)) = false := by
      simp only [Bool.and_eq_false_iff, decide_eq_false_iff_not]
      omega
    rw [hfalse, Bool.false_or]

/-- C6: for every input string, the tokenization on the index-build path
(Indexer._preprocess_text) and on the query path
(Searcher._preprocess_query) produce the same ordered term sequence.
The two source methods are line-for-line the same pipeline, so their
embeddings are definitionally equal. -/
theorem tokenize_paths_agree (s : String) :
    Indexer.preprocess_text s = Searcher.preprocess_query s := rfl

/-- The code path is the stopword filter applied to the raw token
stream. -/
theorem preprocess_eq_rawTokens (s : String) :
    Indexer.preprocess_text s
      = (rawTokens s).filter (fun w => decide (w ∉ stop_words)) := rfl

/-- C7: for every input string the code tokenizer equals the reference
pipeline worded by the spec (lowercase, strip every character that is
not an ASCII letter, digit, or whitespace, split on whitespace, drop
stopwords); the empty input yields the empty sequence; an input whose
raw tokens are all stopwords yields the empty sequence. -/
theorem tokenize_matches_spec :
    (∀ s, Indexer.preprocess_text s = tokenizeSpec s) ∧
    Indexer.preprocess_text "" = [] ∧
    (∀ s, (∀ t ∈ rawTokens s, t ∈ stop_words) → Indexer.preprocess_text s = []) := by
  refine ⟨?_, ?_, ?_⟩
  · intro s
    unfold Indexer.preprocess_text tokenizeSpec
    have hfilters : (s.toList.map pyLowerChar).filter keepCode
        = (s.toList.map pyLowerChar).filter keepSpec := by
      apply List.filter_congr
      intro x hx
      rcases List.mem_map.mp hx with ⟨c, _, rfl⟩
      exact (keep_eq c).symm
    rw [hfilters]
  · rfl
  · intro s hall
    rw [preprocess_eq_rawTokens]
    rw [List.filter_eq_nil_iff]
    intro t ht
    simpa using hall t ht

/-- Witness for C7 at a concrete stopword-only input. -/
theorem tokenize_matches_spec_witness :
    (∀ t ∈ rawTokens "the is at", t ∈ stop_words) ∧
      Indexer.preprocess_text "the is at" = [] :=
  ⟨by decide, tokenize_matches_spec.2.2 "the is at" (by decide)⟩

/-- Membership in the intersection fold of the boolean-AND phase. -/
theorem mem_foldl_inter (idx : List (String × List Int)) (l : List String)
    (acc : List Int) (d : Int) :
    d ∈ l.foldl
        (fun a w => a.filter (fun x => decide (x ∈ Searcher.lookupPostings idx w))) acc ↔
      d ∈ acc ∧ ∀ w ∈ l, d ∈ Searcher.lookupPostings idx w := by
  induction l generalizing acc with
  | nil => simp
  | cons w ws ih =>
    rw [List.foldl_cons, ih]
    simp [List.mem_filter, and_assoc]

/-- C1: for every loaded index and every query with a non-empty token
sequence, the candidate set computed by search (candidateIds, the
boolean-AND fold search runs on lines 59-66) contains a document id iff
that id lies in the posting list of every query term; a term absent from
the index has the empty posting list, making the candidate set empty. -/
theorem search_candidates_intersection (idx : List (String × List Int)) (q : String)
    (d : Int) (h : Searcher.preprocess_query q ≠ []) :
    d ∈ Searcher.candidateIds idx (Searcher.preprocess_query q) ↔
      ∀ t ∈ Searcher.preprocess_query q, d ∈ Searcher.lookupPostings idx t := by
  obtain ⟨t, rest, hts⟩ : ∃ a b, Searcher.preprocess_query q = a :: b := by
    cases hq : Searcher.preprocess_query q with
    | nil => exact absurd hq h
    | cons a b => exact ⟨a, b, rfl⟩
  rw [hts]
  unfold Searcher.candidateIds
  rw [mem_foldl_inter]
  simp [List.mem_dedup]

/-- Witness for C1 on a concrete index and query. -/
theorem search_candidates_intersection_witness :
    Searcher.preprocess_query "cat dog" ≠ [] ∧
    ((2 : Int) ∈ Searcher.candidateIds idxW (Searcher.preprocess_query "cat dog") ↔
      ∀ t ∈ Searcher.preprocess_query "cat dog",
        (2 : Int) ∈ Searcher.lookupPostings idxW t) :=
  ⟨by decide, search_candidates_intersection idxW "cat dog" 2 (by decide)⟩

/-- The intersection fold preserves freedom from duplicates. -/
theorem foldl_filter_nodup (idx : List (String × List Int)) (l : List String) :
    ∀ acc : List Int, acc.Nodup →
      (l.foldl
        (fun a w => a.filter (fun x => decide (x ∈ Searcher.lookupPostings idx w)))
        acc).Nodup := by
  induction l with
  | nil => intro acc h; exact h
  | cons w ws ih =>
    intro acc h
    rw [List.foldl_cons]
    exact ih _ (h.filter _)

/-- The candidate list is duplicate-free, as a Python set is. -/
theorem candidateIds_nodup (idx : List (String × List Int)) (ts : List String) :
    (Searcher.candidateIds idx ts).Nodup := by
  cases ts with
  | nil => exact List.nodup_nil
  | cons t rest => exact foldl_filter_nodup idx rest _ (List.nodup_dedup _)

/-- Bumping a key absent from the score map appends a fresh entry. -/
theorem bump_fresh (m : List (Int × Nat)) (d : Int) (hd : ∀ p ∈ m, p.1 ≠ d) :
    Searcher.bumpScore m d = m ++ [(d, 1)] := by
  unfold Searcher.bumpScore
  rw [if_neg]
  simp only [List.any_eq_true, not_exists, not_and]
  intro p hp
  simp [hd p hp]

/-- Bumping a key held only by the last entry increments that entry. -/
theorem bump_last (m : List (Int × Nat)) (d : Int) (k : Nat) (hd : ∀ p ∈ m, p.1 ≠ d) :
    Searcher.bumpScore (m ++ [(d, k)]) d = m ++ [(d, k + 1)] := by
  unfold Searcher.bumpScore
  rw [if_pos]
  · rw [List.map_append]
    congr 1
    · calc m.map (fun p => if p.1 == d then (p.1, p.2 + 1) else p)
          = m.map id := List.map_congr_left (fun p hp => by simp [hd p hp])
        _ = m := List.map_id m
    · simp
  · simp [List.any_append]

/-- Iterating the bump once per query term over a fresh key yields one
entry whose count grows by the number of terms. -/
theorem foldl_bump (ts : List String) (m : List (Int × Nat)) (d : Int)
    (hd : ∀ p ∈ m, p.1 ≠ d) :
    ∀ k : Nat, ts.foldl (fun m2 _ => Searcher.bumpScore m2 d) (m ++ [(d, k)])
      = m ++ [(d, k + ts.length)] := by
  induction ts with
  | nil => intro k; simp
  | cons t ts ih =>
    intro k
    rw [List.foldl_cons, bump_last m d k hd, ih (k + 1)]
    congr 2
    simp
    omega

/-- The inner scoring loop on a key absent from the map appends exactly
(key, number of query terms). -/
theorem foldl_bump_fresh (ts : List String) (m : List (Int × Nat)) (d : Int)
    (hd : ∀ p ∈ m, p.1 ≠ d) (hts : ts ≠ []) :
    ts.foldl (fun m2 _ => Searcher.bumpScore m2 d) m = m ++ [(d, ts.length)] := by
  cases ts with
  | nil => exact absurd rfl hts
  | cons t ts =>
    rw [List.foldl_cons, bump_fresh m d hd, foldl_bump ts m d hd 1]
    congr 2
    simp [Nat.add_comm]

/-- The scoring loop over pairwise-distinct fresh candidates produces
exactly one entry per candidate, each with count = number of query
terms. -/
theorem docScores_eq (ts : List String) (hts : ts ≠ []) :
    ∀ (cands : List Int) (m : List (Int × Nat)),
      cands.Nodup → (∀ d ∈ cands, ∀ p ∈ m, p.1 ≠ d) →
      cands.foldl (fun m d => ts.foldl (fun m2 _ => Searcher.bumpScore m2 d) m) m
        = m ++ cands.map (fun d => (d, ts.length))
  | [], m, _, _ => by simp
  | c :: cs, m, hnd, hfresh => by
    rw [List.foldl_cons, foldl_bump_fresh ts m c (hfresh c (by simp)) hts]
    rw [docScores_eq ts hts cs (m ++ [(c, ts.length)]) (List.nodup_cons.mp hnd).2 ?_]
    · simp
    · intro d hd p hp
      rcases List.mem_append.mp hp with hp | hp
      · exact hfresh d (by simp [hd]) p hp
      · have hpc : p = (c, ts.length) := by simpa using hp
        rw [hpc]
        intro he
        have hcd : c = d := he
        exact (List.nodup_cons.mp hnd).1 (by rw [hcd]; exact hd)

/-- Looking a member key up in the uniform score map returns the uniform
count. -/
theorem scoreOf_map (cands : List Int) (len : Nat) (d : Int) (hd : d ∈ cands) :
    Searcher.scoreOf (cands.map (fun x => (x, len))) d = len := by
  induction cands with
  | nil => cases hd
  | cons c cs ih =>
    by_cases hc : c = d
    · subst hc
      simp [Searcher.scoreOf, List.find?_cons]
    · have ihm := ih (by
        rcases List.mem_cons.mp hd with h | h
        · exact absurd h.symm hc
        · exact h)
      have hb : (((c, len) : Int × Nat).1 == d) = false := by simp [hc]
      unfold Searcher.scoreOf at ihm ⊢
      rw [List.map_cons, List.find?_cons, hb]
      exact ihm

/-- C5: for every query whose token sequence is non-empty, every
candidate surviving the intersection receives the identical score equal
to the number of query terms, so the ranking does not discriminate among
candidates. -/
theorem candidate_scores_uniform (idx : List (String × List Int)) (q : String)
    (d : Int) (h : Searcher.preprocess_query q ≠ [])
    (hd : d ∈ Searcher.candidateIds idx (Searcher.preprocess_query q)) :
    Searcher.scoreOf
        (Searcher.docScores (Searcher.preprocess_query q)
          (Searcher.candidateIds idx (Searcher.preprocess_query q))) d
      = (Searcher.preprocess_query q).length := by
  have hnd : (Searcher.candidateIds idx (Searcher.preprocess_query q)).Nodup :=
    candidateIds_nodup idx _
  unfold Searcher.docScores
  rw [docScores_eq (Searcher.preprocess_query q) h
    (Searcher.candidateIds idx (Searcher.preprocess_query q)) [] hnd
    (fun d2 _ p hp => absurd hp (List.not_mem_nil p))]
  rw [List.nil_append]
  exact scoreOf_map _ _ d hd

/-- Witness for C5 on a concrete index and query: both candidates of
the query cat dog get score 2 = number of query terms. -/
theorem candidate_scores_uniform_witness :
    Searcher.preprocess_query "cat dog" ≠ [] ∧
    (2 : Int) ∈ Searcher.candidateIds idxW (Searcher.preprocess_query "cat dog") ∧
    Searcher.scoreOf
        (Searcher.docScores (Searcher.preprocess_query "cat dog")
          (Searcher.candidateIds idxW (Searcher.preprocess_query "cat dog"))) 2 = 2 := by
  refine ⟨by decide, by decide, ?_⟩
  rw [candidate_scores_uniform idxW "cat dog" 2 (by decide) (by decide)]
  decide

/-- The row-fetch loop accumulator equals a filterMap: present rows are
kept in order, absent rows are skipped. -/
theorem foldl_results_eq (db : Int → Option (String × String)) (ids : List Int)
    (acc : List (String × String)) :
    ids.foldl (fun results d =>
        match db d with
        | some row => results ++ [Searcher.resultOfRow row]
        | none => results) acc
      = acc ++ ids.filterMap (fun d => (db d).map Searcher.resultOfRow) := by
  induction ids generalizing acc with
  | nil => simp
  | cons i is ih =>
    rw [List.foldl_cons]
    rcases hdb : db i with _ | row
    · rw [ih]
      simp [hdb]
    · rw [ih]
      simp [hdb]

/-- C10: for every index, document store and query, search returns
exactly the (url, snippet) pairs of the ranked candidate ids whose rows
exist in the store, in ranked order; a candidate id with no row in the
store is silently skipped and never makes search fail (search is a total
function into the (url, snippet) list). -/
theorem search_skips_missing_rows (idx : List (String × List Int))
    (db : Int → Option (String × String)) (q : String) :
    Searcher.search idx db q =
      (Searcher.rankedResultIds idx q).filterMap
        (fun d => (db d).map Searcher.resultOfRow) := by
  unfold Searcher.search Searcher.rankedResultIds
  rcases hts : Searcher.preprocess_query q with _ | ⟨t, rest⟩
  · simp
  · by_cases hc : Searcher.candidateIds idx (t :: rest) = []
    · simp [hc]
    · simp only [hc, if_neg, ite_false]
      rw [foldl_results_eq]
      simp

/-- JSON-decoding the encoded posting list recovers it. -/
theorem decodeIds_round (ns : List Int) :
    Searcher.decodeIds (ns.map Json.num) = some ns := by
  induction ns with
  | nil => rfl
  | cons n ns ih =>
    rw [List.map_cons]
    unfold Searcher.decodeIds
    rw [ih]

/-- JSON-decoding the encoded entry list recovers it. -/
theorem decodeEntries_round (idx : List (String × List Int)) :
    Searcher.decodeEntries (idx.map (fun p => (p.1, Json.arr (p.2.map Json.num))))
      = some idx := by
  induction idx with
  | nil => rfl
  | cons p ps ih =>
    rw [List.map_cons]
    unfold Searcher.decodeEntries
    rw [decodeIds_round, ih]

/-- Loading any saved index recovers it exactly. -/
theorem load_save (idx : List (String × List Int)) :
    Searcher.load_index (Indexer.save_index idx) = some idx := by
  unfold Indexer.save_index Searcher.load_index
  exact decodeEntries_round idx

/-- C9: for every built inverted index, loading the serialized index
written by save yields an index equal to the one saved: same terms, and
per term the same posting-list contents in the same order. -/
theorem index_roundtrip (rows : List (Int × String)) :
    Searcher.load_index (Indexer.save_index (Indexer.build_index rows))
      = some (Indexer.build_index rows) :=
  load_save (Indexer.build_index rows)

/-- One crawl iteration preserves the loop invariant: every stored URL
is visited, the store size equals the page counter, and the counter is
bounded by max_pages (using the loop guard for the last part). -/
theorem crawl_step_inv (web : List (String × Page))
    (oracle : String → Nat → Option (String → Bool)) (maxPages : Nat)
    (s : Crawler.CrawlState) (hq : s.queue ≠ []) (hguard : s.pagesCrawled < maxPages)
    (hP : (∀ r ∈ s.store, r.1 ∈ s.visited) ∧ s.store.length = s.pagesCrawled ∧
      s.pagesCrawled ≤ maxPages) :
    (∀ r ∈ (Crawler.crawlIter web oracle s).store,
        r.1 ∈ (Crawler.crawlIter web oracle s).visited) ∧
    (Crawler.crawlIter web oracle s).store.length
      = (Crawler.crawlIter web oracle s).pagesCrawled ∧
    (Crawler.crawlIter web oracle s).pagesCrawled ≤ maxPages := by
  obtain ⟨hPm, hPl, hPb⟩ := hP
  obtain ⟨url, rest, hqe⟩ : ∃ u r, s.queue = u :: r := by
    cases hq2 : s.queue with
    | nil => exact absurd hq2 hq
    | cons a b => exact ⟨a, b, rfl⟩
  have hcf := Crawler.can_fetch_fields oracle { s with queue := rest } url
  have hs1v : (Crawler.can_fetch oracle { s with queue := rest } url).2.visited
      = s.visited := hcf.2.1
  have hs1s : (Crawler.can_fetch oracle { s with queue := rest } url).2.store
      = s.store := hcf.2.2.1
  have hs1p : (Crawler.can_fetch oracle { s with queue := rest } url).2.pagesCrawled
      = s.pagesCrawled := hcf.2.2.2
  rcases Crawler.crawlIter_cases web oracle s url rest hqe with
    ⟨hv, hiter⟩ | ⟨hv, _, hiter⟩ | ⟨hv, _, hiter⟩
  · rw [hiter]
    exact ⟨hPm, hPl, hPb⟩
  · rw [hiter]
    refine ⟨?_, ?_, ?_⟩
    · intro r hr
      rw [hs1v]
      exact hPm r (hs1s ▸ hr)
    · rw [hs1s, hs1p]
      exact hPl
    · rw [hs1p]
      exact hPb
  · rcases Crawler.crawlAllowed_cases web
        (Crawler.can_fetch oracle { s with queue := rest } url).2 url with
      ⟨hca, _⟩ | ⟨pg, hf, hst, hca⟩
    · rw [hiter, hca]
      refine ⟨?_, ?_, ?_⟩
      · intro r hr
        show r.1 ∈ insert url _
        rw [hs1v]
        exact Finset.mem_insert_of_mem (hPm r (hs1s ▸ hr))
      · show (Crawler.can_fetch oracle { s with queue := rest } url).2.store.length = _
        rw [hs1s, hs1p]
        exact hPl
      · show (Crawler.can_fetch oracle { s with queue := rest } url).2.pagesCrawled ≤ _
        rw [hs1p]
        exact hPb
    · have hfresh :
          ((Crawler.can_fetch oracle { s with queue := rest } url).2.store.any
            (fun r => r.1 == url)) = false := by
        rw [hs1s, List.any_eq_false]
        intro r hr
        simp only [beq_iff_eq]
        intro he
        exact hv (he ▸ hPm r hr)
      have hstore :
          Crawler.store_page (Crawler.can_fetch oracle { s with queue := rest } url).2.store
            url pg.html pg.text
          = (Crawler.can_fetch oracle { s with queue := rest } url).2.store
              ++ [(url, pg.html, pg.text)] := by
        unfold Crawler.store_page
        rw [if_neg (by rw [hfresh]; exact Bool.false_ne_true)]
      rw [hiter, hca]
      refine ⟨?_, ?_, ?_⟩
      · intro r hr
        show r.1 ∈ insert url _
        rw [hs1v]
        have hr2 : r ∈ (Crawler.can_fetch oracle { s with queue := rest } url).2.store
            ++ [(url, pg.html, pg.text)] := by
          rw [← hstore]
          exact hr
        rcases List.mem_append.mp hr2 with hr3 | hr3
        · exact Finset.mem_insert_of_mem (hPm r (hs1s ▸ hr3))
        · have : r = (url, pg.html, pg.text) := by simpa using hr3
          rw [this]
          exact Finset.mem_insert_self _ _
      · show (Crawler.store_page _ url pg.html pg.text).length = _ + 1
        rw [hstore, List.length_append, hs1s, hs1p, hPl]
        rfl
      · show (Crawler.can_fetch oracle { s with queue := rest } url).2.pagesCrawled + 1 ≤ _
        rw [hs1p]
        omega

/-- C4: for every finite web model, robots oracle, seed list and page
cap, crawl terminates (crawlLoop is a total function, by well-founded
recursion on (unvisited reachable URLs, queue length)), and the final
state has an empty frontier or exactly maxPages stored documents,
whichever came first; in particular at most maxPages documents are
stored even if the frontier is non-empty. -/
theorem crawl_terminates_cap (web : List (String × Page))
    (oracle : String → Nat → Option (String → Bool)) (seeds : List String)
    (maxPages : Nat) :
    ((Crawler.crawl web oracle seeds maxPages).queue = [] ∨
      (Crawler.crawl web oracle seeds maxPages).store.length = maxPages) ∧
    (Crawler.crawl web oracle seeds maxPages).store.length ≤ maxPages := by
  have hinv := Crawler.crawlLoop_inv web oracle maxPages
    (fun st => (∀ r ∈ st.store, r.1 ∈ st.visited) ∧ st.store.length = st.pagesCrawled ∧
      st.pagesCrawled ≤ maxPages)
    (fun st hq hguard hP => crawl_step_inv web oracle maxPages st hq hguard hP)
    (Crawler.initState seeds)
    ⟨fun r hr => absurd hr (List.not_mem_nil r), rfl, Nat.zero_le _⟩
  have hexit := Crawler.crawlLoop_exit web oracle maxPages (Crawler.initState seeds)
  obtain ⟨_, hlen, hbound⟩ := hinv
  unfold Crawler.crawl
  constructor
  · rcases hexit with he | he
    · exact Or.inl he
    · refine Or.inr ?_
      rw [hlen]
      omega
  · rw [hlen]
    exact hbound

/-- When the robots read for a host always fails and nothing is cached
for it, can_fetch on a URL of that host returns false and still caches
nothing for that host. -/
theorem can_fetch_dead (oracle : String → Nat → Option (String → Bool))
    (s : Crawler.CrawlState) (u h : String)
    (hor : ∀ n, oracle h n = none) (hc : s.robotParsers h = none)
    (hu : Crawler.baseUrl u = h) :
    (Crawler.can_fetch oracle s u).1 = false ∧
    (Crawler.can_fetch oracle s u).2.robotParsers h = none := by
  unfold Crawler.can_fetch
  rw [hu, hc, hor]
  exact ⟨rfl, hc⟩

/-- can_fetch for a URL of a different host never changes what is cached
for host h. -/
theorem can_fetch_other (oracle : String → Nat → Option (String → Bool))
    (s : Crawler.CrawlState) (u h : String) (hne : Crawler.baseUrl u ≠ h) :
    (Crawler.can_fetch oracle s u).2.robotParsers h = s.robotParsers h := by
  unfold Crawler.can_fetch
  rcases s.robotParsers (Crawler.baseUrl u) with _ | rp
  · rcases oracle (Crawler.baseUrl u) (s.attempts (Crawler.baseUrl u)) with _ | rp
    · rfl
    · show (if h = Crawler.baseUrl u then some rp else s.robotParsers h) = s.robotParsers h
      rw [if_neg (fun he => hne he.symm)]
  · rfl

/-- One crawl iteration preserves the fail-closed state for a host whose
robots read always fails: nothing gets cached for it and no URL of that
host enters the store. -/
theorem crawl_step_fail_closed (web : List (String × Page))
    (oracle : String → Nat → Option (String → Bool)) (h : String)
    (hor : ∀ n, oracle h n = none) (s : Crawler.CrawlState) (hq : s.queue ≠ [])
    (hP : s.robotParsers h = none ∧
      s.store.filter (fun r => Crawler.baseUrl r.1 == h) = []) :
    (Crawler.crawlIter web oracle s).robotParsers h = none ∧
    (Crawler.crawlIter web oracle s).store.filter
      (fun r => Crawler.baseUrl r.1 == h) = [] := by
  obtain ⟨hPc, hPs⟩ := hP
  obtain ⟨url, rest, hqe⟩ : ∃ u r, s.queue = u :: r := by
    cases hq2 : s.queue with
    | nil => exact absurd hq2 hq
    | cons a b => exact ⟨a, b, rfl⟩
  have hcf := Crawler.can_fetch_fields oracle { s with queue := rest } url
  rcases Crawler.crawlIter_cases web oracle s url rest hqe with
    ⟨hv, hiter⟩ | ⟨hv, _, hiter⟩ | ⟨hv, hallow, hiter⟩
  · rw [hiter]
    exact ⟨hPc, hPs⟩
  · rw [hiter]
    by_cases hbu : Crawler.baseUrl url = h
    · have hd := can_fetch_dead oracle { s with queue := rest } url h hor hPc hbu
      refine ⟨hd.2, ?_⟩
      rw [hcf.2.2.1]
      exact hPs
    · refine ⟨?_, ?_⟩
      · rw [can_fetch_other oracle _ url h hbu]
        exact hPc
      · rw [hcf.2.2.1]
        exact hPs
  · have hbu : Crawler.baseUrl url ≠ h := by
      intro he
      have hd := can_fetch_dead oracle { s with queue := rest } url h hor hPc he
      rw [hallow] at hd
      exact absurd hd.1 (by decide)
    have h1c : (Crawler.can_fetch oracle { s with queue := rest } url).2.robotParsers h
        = none := by
      rw [can_fetch_other oracle _ url h hbu]
      exact hPc
    have h1s : (Crawler.can_fetch oracle { s with queue := rest } url).2.store
        = s.store := hcf.2.2.1
    rcases Crawler.crawlAllowed_cases web
        (Crawler.can_fetch oracle { s with queue := rest } url).2 url with
      ⟨hca, _⟩ | ⟨pg, hf, hst, hca⟩
    · rw [hiter, hca]
      refine ⟨h1c, ?_⟩
      show (Crawler.can_fetch oracle { s with queue := rest } url).2.store.filter _ = []
      rw [h1s]
      exact hPs
    · rw [hiter, hca]
      refine ⟨h1c, ?_⟩
      show (Crawler.store_page
        (Crawler.can_fetch oracle { s with queue := rest } url).2.store
        url pg.html pg.text).filter (fun r => Crawler.baseUrl r.1 == h) = []
      unfold Crawler.store_page
      split
      · rw [h1s]
        exact hPs
      · rw [List.filter_append, h1s, hPs, List.nil_append]
        simp [hbu]

/-- C2 amended: a single failed robots read makes that can_fetch call
return false but caches nothing (a later read may succeed, see the
counterexample); when the robots read for a host fails on every attempt,
every can_fetch for that host returns false and no URL of that host is
ever stored by the crawl loop. -/
theorem robots_fail_closed (web : List (String × Page))
    (oracle : String → Nat → Option (String → Bool)) (maxPages : Nat) (h : String)
    (s : Crawler.CrawlState) (u : String)
    (hu : Crawler.baseUrl u = h)
    (hor : ∀ n, oracle h n = none)
    (hc : s.robotParsers h = none)
    (hs : s.store.filter (fun r => Crawler.baseUrl r.1 == h) = []) :
    (Crawler.can_fetch oracle s u).1 = false ∧
    (Crawler.can_fetch oracle s u).2.robotParsers h = none ∧
    (Crawler.crawlLoop web oracle maxPages s).store.filter
      (fun r => Crawler.baseUrl r.1 == h) = [] := by
  obtain ⟨h1, h2⟩ := can_fetch_dead oracle s u h hor hc hu
  refine ⟨h1, h2, ?_⟩
  have := Crawler.crawlLoop_inv web oracle maxPages
    (fun st => st.robotParsers h = none ∧
      st.store.filter (fun r => Crawler.baseUrl r.1 == h) = [])
    (fun st hq _ hP => crawl_step_fail_closed web oracle h hor st hq hP)
    s ⟨hc, hs⟩
  exact this.2

/-- C2 counterexample: with a robots read that fails on the first
attempt and succeeds on the second (a transient failure), the first
can_fetch returns false yet caches nothing, and the very next can_fetch
on the same host returns true — the claimed cached deny-all policy for
the remainder of the run does not exist in the code. -/
theorem robots_failure_not_cached_cex :
    (Crawler.can_fetch oracleFlaky (Crawler.initState []) "http://h/x").1 = false ∧
    (Crawler.can_fetch oracleFlaky
      (Crawler.initState []) "http://h/x").2.robotParsers "http://h" = none ∧
    (Crawler.can_fetch oracleFlaky
      (Crawler.can_fetch oracleFlaky (Crawler.initState []) "http://h/x").2
      "http://h/x").1 = true :=
  ⟨rfl, rfl, rfl⟩

/-- Witness for the amended C2 on a concrete always-failing host. -/
theorem robots_fail_closed_witness :
    (Crawler.can_fetch oracleNone
      (Crawler.initState ["http://h/x"]) "http://h/x").1 = false ∧
    (Crawler.can_fetch oracleNone
      (Crawler.initState ["http://h/x"]) "http://h/x").2.robotParsers "http://h" = none ∧
    (Crawler.crawlLoop webW oracleNone 5
      (Crawler.initState ["http://h/x"])).store.filter
        (fun r => Crawler.baseUrl r.1 == "http://h") = [] :=
  robots_fail_closed webW oracleNone 5 "http://h" (Crawler.initState ["http://h/x"])
    "http://h/x" (by decide) (fun n => rfl) rfl rfl

/-- C3 amended: when the head URL is processed successfully, the links
of its page are appended to the queue tail filtered ONLY by the
string-prefix test startswith http (which admits https but also any
other string with that prefix); no visited-set and no queue-membership
check is made at enqueue time. -/
theorem enqueue_appends_http_prefix (web : List (String × Page))
    (oracle : String → Nat → Option (String → Bool)) (s : Crawler.CrawlState)
    (url : String) (rest : List String) (pg : Page) (rp : String → Bool)
    (hqe : s.queue = url :: rest) (hv : url ∉ s.visited)
    (hcache : s.robotParsers (Crawler.baseUrl url) = some rp)
    (hallow : rp url = true)
    (hf : Crawler.fetch web url = some pg) (hst : pg.status = 200) :
    (Crawler.crawlIter web oracle s).queue
      = rest ++ pg.links.filter (fun l => Crawler.startswith l "http") := by
  have hcf1 : Crawler.can_fetch oracle { s with queue := rest } url
      = (rp url, { s with queue := rest }) := by
    unfold Crawler.can_fetch
    rw [show ({ s with queue := rest } : Crawler.CrawlState).robotParsers
      = s.robotParsers from rfl, hcache]
  rcases Crawler.crawlIter_cases web oracle s url rest hqe with
    ⟨hv2, _⟩ | ⟨_, hfalse, _⟩ | ⟨_, _, hiter⟩
  · exact absurd hv2 hv
  · rw [hcf1] at hfalse
    simp [hallow] at hfalse
  · rw [hiter, hcf1]
    rcases Crawler.crawlAllowed_cases web { s with queue := rest } url with
      ⟨_, hbad⟩ | ⟨pg2, hf2, hst2, hca⟩
    · rcases hbad with hbad | ⟨pg2, hf2, hst2⟩
      · rw [hf] at hbad
        cases hbad
      · rw [hf] at hf2
        have hpg : pg2 = pg := by injection hf2 with h2; exact h2.symm
        rw [hpg] at hst2
        exact absurd hst hst2
    · rw [hca]
      have hpg : pg2 = pg := by
        rw [hf] at hf2
        injection hf2 with h2
        exact h2.symm
      rw [hpg]
      show Crawler.enqueueLinks rest pg.links = _
      exact Crawler.enqueueLinks_eq pg.links rest

/-- C3 counterexample: processing http://a appends its links to the
queue although http://b is already queued (the duplicate stays) and
although httpx://c does not have scheme http or https (the prefix test
admits it); the claimed no-op cases do not exist in the code. -/
theorem enqueue_no_dedup_cex :
    "http://b" ∈ sW.queue ∧
    (Crawler.crawlIter webW oracleNone sW).queue
      = ["http://b", "http://b", "httpx://c"] := by
  exact ⟨by decide, by decide⟩

/-- Witness for the amended C3 on a concrete state. -/
theorem enqueue_appends_http_prefix_witness :
    (Crawler.crawlIter webW oracleNone sW).queue
      = ["http://b"] ++ pgA.links.filter (fun l => Crawler.startswith l "http") :=
  enqueue_appends_http_prefix webW oracleNone sW "http://a" ["http://b"] pgA allowAll
    rfl (by decide) rfl rfl rfl rfl

/-- C8 amended: when the store already holds a row for the fetched URL,
the insert is rejected and the iteration continues as a non-fatal skip —
the store is unchanged and the page links are still enqueued — but the
pages_crawled counter IS incremented: the duplicate attempt does count
against the max_pages quota. -/
theorem duplicate_insert_counts (web : List (String × Page))
    (oracle : String → Nat → Option (String → Bool)) (s : Crawler.CrawlState)
    (url : String) (rest : List String) (pg : Page) (rp : String → Bool)
    (hqe : s.queue = url :: rest) (hv : url ∉ s.visited)
    (hcache : s.robotParsers (Crawler.baseUrl url) = some rp)
    (hallow : rp url = true)
    (hf : Crawler.fetch web url = some pg) (hst : pg.status = 200)
    (hdup : s.store.any (fun r => r.1 == url) = true) :
    (Crawler.crawlIter web oracle s).store = s.store ∧
    (Crawler.crawlIter web oracle s).pagesCrawled = s.pagesCrawled + 1 ∧
    (Crawler.crawlIter web oracle s).queue
      = rest ++ pg.links.filter (fun l => Crawler.startswith l "http") := by
  have hcf1 : Crawler.can_fetch oracle { s with queue := rest } url
      = (rp url, { s with queue := rest }) := by
    unfold Crawler.can_fetch
    rw [show ({ s with queue := rest } : Crawler.CrawlState).robotParsers
      = s.robotParsers from rfl, hcache]
  rcases Crawler.crawlIter_cases web oracle s url rest hqe with
    ⟨hv2, _⟩ | ⟨_, hfalse, _⟩ | ⟨_, _, hiter⟩
  · exact absurd hv2 hv
  · rw [hcf1] at hfalse
    simp [hallow] at hfalse
  · rw [hiter, hcf1]
    rcases Crawler.crawlAllowed_cases web { s with queue := rest } url with
      ⟨_, hbad⟩ | ⟨pg2, hf2, hst2, hca⟩
    · rcases hbad with hbad | ⟨pg2, hf2, hst2⟩
      · rw [hf] at hbad
        cases hbad
      · rw [hf] at hf2
        have hpg : pg2 = pg := by injection hf2 with h2; exact h2.symm
        rw [hpg] at hst2
        exact absurd hst hst2
    · rw [hca]
      have hpg : pg2 = pg := by
        rw [hf] at hf2
        injection hf2 with h2
        exact h2.symm
      rw [hpg]
      refine ⟨?_, rfl, ?_⟩
      · show Crawler.store_page s.store url pg.html pg.text = s.store
        unfold Crawler.store_page
        rw [if_pos hdup]
      · show Crawler.enqueueLinks rest pg.links = _
        exact Crawler.enqueueLinks_eq pg.links rest

/-- C8 counterexample: the crawl iteration on http://a, whose URL is
already present in the store, leaves the store unchanged (the insert is
rejected) yet increments pages_crawled from 0 to 1 — the rejected
duplicate insert does count against the page quota. -/
theorem duplicate_insert_counts_cex :
    (Crawler.crawlIter webW oracleNone sDup).store = [("http://a", "x", "y")] ∧
    (Crawler.crawlIter webW oracleNone sDup).pagesCrawled = 1 :=
  ⟨rfl, rfl⟩

/-- Witness for the amended C8 on a concrete duplicate-URL state. -/
theorem duplicate_insert_counts_witness :
    (Crawler.crawlIter webW oracleNone sDup).store = sDup.store ∧
    (Crawler.crawlIter webW oracleNone sDup).pagesCrawled = sDup.pagesCrawled + 1 ∧
    (Crawler.crawlIter webW oracleNone sDup).queue
      = [] ++ pgA.links.filter (fun l => Crawler.startswith l "http") :=
  duplicate_insert_counts webW oracleNone sDup "http://a" [] pgA allowAll
    rfl (by decide) rfl rfl rfl rfl (by decide)

end MiniSearch
